import Mathlib

/-!
# Verification of the godel-scheduler cache/snapshot core and load-aware scorer

Shallow embedding of:
* the load-aware scoring plugin (its test `TestLoadAware` with concrete
  expected scores is the in-repo evidence; the scorer itself is modelled
  from the spec, calibrated against those test expectations),
* the `Snapshot` facade (`Get`, `GetNodeInfo`, `AssumePod`/`ForgetPod`),
* the `nodeSlices.update` index maintenance and its invariants,
* the vendored katalyst clientset constructor `NewForConfigAndClient`.

Machine integers are modelled as `Nat`: every quantity involved
(milli-CPU, bytes of memory, weights, scores) is non-negative and far
below 2^63, so Go's `int64` arithmetic agrees with `Nat` arithmetic on
the reachable values; Go integer division on non-negative operands is
floor division, i.e. `Nat` division.
-/

namespace GodelScheduler

/-! ## Load-aware scorer data model (package `loadaware`) -/

/-- Pod resource types as used by `podutil.BestEffortPod` / `podutil.GuaranteedPod`. -/
inductive PodResourceType where
  | guaranteed
  | bestEffort
deriving DecidableEq, Repr

/-- The two resource names the scorer's configuration uses
(`v1.ResourceCPU`, `v1.ResourceMemory`). CPU is measured in milli-cores,
memory in bytes. -/
inductive ResourceName where
  | cpu
  | memory
deriving DecidableEq, Repr

/-- One entry of `config.ResourceSpec`: resource name, weight, and the pod
resource type whose requests it accounts. -/
structure ResourceSpec where
  name : ResourceName
  weight : Nat
  resourceType : PodResourceType
deriving DecidableEq, Repr

/-- A pod as the scorer sees it: its resource-type annotation and its
resource requests (0 meaning "not specified"). -/
structure PodData where
  resourceType : PodResourceType
  requestMilliCPU : Nat
  requestMemory : Nat
deriving DecidableEq, Repr

/-- A node as the scorer sees it: its name, allocatable capacity per
resource, and the pods currently assigned to it. -/
structure ScoringNode where
  name : String
  allocatableMilliCPU : Nat
  allocatableMemory : Nat
  pods : List PodData
deriving DecidableEq, Repr

/-- Allocatable capacity of a node for one resource name. -/
def ScoringNode.allocatable (n : ScoringNode) : ResourceName → Nat
  | ResourceName.cpu => n.allocatableMilliCPU
  | ResourceName.memory => n.allocatableMemory

/-- Modelled from the spec: the scorer's per-pod request accounting.  The
scorer implementation is not part of the shown surface; the repo test
`TestLoadAware` fixes its behaviour.  A pod that requests nothing for a
resource is accounted with the Kubernetes non-zero defaults
(100 milli-CPU, 200 MB memory): with a literal zero the first test case
(empty node, empty best-effort pod) would score 100, while the test
expects 97, which is exactly the score under these defaults. -/
def nonZeroRequest (r : ResourceName) (p : PodData) : Nat :=
  match r with
  | ResourceName.cpu => if p.requestMilliCPU = 0 then 100 else p.requestMilliCPU
  | ResourceName.memory => if p.requestMemory = 0 then 200 * 1024 * 1024 else p.requestMemory

/-- Modelled from the spec: the utilization sum for one configured
resource.  It sums the (non-zero defaulted) requests of the node's
assigned pods whose resource type matches the configured entry, plus the
scored pod's own request when its type matches (the second test case —
4000m nodes hosting 1-CPU resp. 2-CPU pods, scoring a 1-CPU pod — expects
scores 68/53, which require the incoming pod's requests to be counted). -/
def usedBy (e : ResourceSpec) (pod : PodData) (n : ScoringNode) : Nat :=
  ((n.pods.filter (fun q => q.resourceType = e.resourceType)).map
      (nonZeroRequest e.name)).sum +
    (if pod.resourceType = e.resourceType then nonZeroRequest e.name pod else 0)

/-- Modelled from the spec: the per-resource score
`((capacity - used) * 100) / capacity` (`MaxNodeScore = 100`), computed in
integer arithmetic (Go truncating division; `Nat` subtraction also clamps
an over-committed node at 0, which the spec calls "clamped implicitly by
the inputs"). -/
def resourceScore (e : ResourceSpec) (pod : PodData) (n : ScoringNode) : Nat :=
  ((n.allocatable e.name - usedBy e pod n) * 100) / n.allocatable e.name

/-- Modelled from the spec: the final load-aware score.  Like the Go
plugin it loops over the configured resources accumulating a weighted
score sum and a weight sum, then divides. -/
def loadAwareScore (spec : List ResourceSpec) (pod : PodData) (n : ScoringNode) : Nat :=
  let acc := spec.foldl
    (fun (acc : Nat × Nat) e => (acc.1 + e.weight * resourceScore e pod n, acc.2 + e.weight))
    (0, 0)
  acc.1 / acc.2

/-- The claim's formula, written from the spec's words for comparison with
the modelled scorer: `used` is the summed (raw) requests of the pods
assigned to the node that match the configured resource type — the scored
pod is not counted and no non-zero defaults apply — and both the
per-resource division and the weighted average are "rounded to nearest
integer". -/
def claimRoundNearest (a b : Nat) : Nat :=
  (2 * a + b) / (2 * b)

/-- The claim's `used`: summed raw requests of assigned pods of matching
resource type. -/
def claimUsedBy (e : ResourceSpec) (n : ScoringNode) : Nat :=
  ((n.pods.filter (fun q => q.resourceType = e.resourceType)).map
      (fun q => match e.name with
        | ResourceName.cpu => q.requestMilliCPU
        | ResourceName.memory => q.requestMemory)).sum

/-- The claim's per-resource score, rounded to nearest. -/
def claimResourceScore (e : ResourceSpec) (n : ScoringNode) : Nat :=
  claimRoundNearest ((n.allocatable e.name - claimUsedBy e n) * 100) (n.allocatable e.name)

/-- The claim's final score: round-to-nearest weighted average of the
per-resource scores. -/
def claimScore (spec : List ResourceSpec) (n : ScoringNode) : Nat :=
  claimRoundNearest ((spec.map (fun e => e.weight * claimResourceScore e n)).sum)
    ((spec.map (fun e => e.weight)).sum)

/-- The amended formula, written flat from the amended claim's words:
floor-division weighted average `(Σ weight_i * resourceScore_i) / (Σ weight_i)`
of the floor-division per-resource scores
`((capacity - used) * 100) / capacity`, with `used` including the scored
pod's non-zero-defaulted request when its type matches. -/
def amendedScore (spec : List ResourceSpec) (pod : PodData) (n : ScoringNode) : Nat :=
  ((spec.map (fun e =>
      e.weight * (((n.allocatable e.name - usedBy e pod n) * 100) / n.allocatable e.name))).sum) /
    ((spec.map (fun e => e.weight)).sum)

/-! ### Test fixtures of `TestLoadAware` -/

/-- The resource spec of the test: CPU weight 1 and memory weight 1, both
for best-effort pods. -/
def defaultResourceSpec : List ResourceSpec :=
  [⟨ResourceName.cpu, 1, PodResourceType.bestEffort⟩,
   ⟨ResourceName.memory, 1, PodResourceType.bestEffort⟩]

/-- `beEmptyPod`: best-effort pod with no resource requests. -/
def beEmptyPod : PodData := ⟨PodResourceType.bestEffort, 0, 0⟩

/-- `bePod` / `bePod1`: best-effort pod requesting 1 CPU and 1Gi. -/
def bePod : PodData := ⟨PodResourceType.bestEffort, 1000, 1073741824⟩

/-- `bePod2`: best-effort pod requesting 2 CPU and 2Gi. -/
def bePod2 : PodData := ⟨PodResourceType.bestEffort, 2000, 2147483648⟩

/-- `gtPod1`: guaranteed pod requesting 1 CPU and 1Gi. -/
def gtPod1 : PodData := ⟨PodResourceType.guaranteed, 1000, 1073741824⟩

/-- `gtPod2`: guaranteed pod requesting 2 CPU and 2Gi. -/
def gtPod2 : PodData := ⟨PodResourceType.guaranteed, 2000, 2147483648⟩

/-- A node with the test's capacity (4 CPU = 4000m, 16Gi) and a given pod
list. -/
def testNode (name : String) (pods : List PodData) : ScoringNode :=
  ⟨name, 4000, 17179869184, pods⟩

/-! ## Snapshot node lookup (`Snapshot.Get` / `Snapshot.GetNodeInfo`) -/

/-- A raw Kubernetes node object attached to a `NodeInfo` (`GetNode()`). -/
structure RawNode where
  nodeName : String
deriving DecidableEq, Repr

/-- A node-management object attached to a `NodeInfo` (`GetNMNode()`). -/
structure NMNode where
  nodeName : String
deriving DecidableEq, Repr

/-- The slice of `framework.NodeInfo` that `Snapshot.Get` inspects: the
optional raw node object and the optional node-management object. -/
structure SnapNodeInfo where
  nodeName : String
  node : Option RawNode
  nmNode : Option NMNode
deriving DecidableEq, Repr

/-- Association-list lookup by name, the model of a Go `map[string]`. -/
def assocFind (key : String) : List (String × β) → Option β
  | [] => none
  | (k, v) :: t => if key = k then some v else assocFind key t

/-- The node store's contents as the snapshot sees them: node name to
`NodeInfo`. -/
abbrev NodeStoreMap := List (String × SnapNodeInfo)

/-- Modelled from the spec: `NodeStore.Get` (the node store implementation
behind `storeSwitch.Find(nodestore.Name)` is not in the shown surface) —
a plain keyed lookup returning nil (`none`) when absent. -/
def nodeStoreGet (store : NodeStoreMap) (name : String) : Option SnapNodeInfo :=
  assocFind name store

/-- `Snapshot.GetNodeInfo`: returns the node store's `NodeInfo` for the
name, directly and without error (`none` models the nil pointer). -/
def snapshotGetNodeInfo (store : NodeStoreMap) (name : String) : Option SnapNodeInfo :=
  nodeStoreGet store name

/-- Whether an `Except` result is the error case. -/
def isError : Except ε α → Bool
  | Except.error _ => true
  | Except.ok _ => false

/-- `Snapshot.Get`: returns the `NodeInfo` when the store holds one for
the name and it has a raw node object or a node-management object
attached; otherwise the not-found error. -/
def snapshotGet (store : NodeStoreMap) (name : String) : Except String SnapNodeInfo :=
  match nodeStoreGet store name with
  | some nodeInfo =>
    if nodeInfo.node.isSome || nodeInfo.nmNode.isSome then Except.ok nodeInfo
    else Except.error ("nodeinfo not found for node name \"" ++ name ++ "\"")
  | none => Except.error ("nodeinfo not found for node name \"" ++ name ++ "\"")

/-- A store holding one `NodeInfo` with neither a raw node nor an NMNode
attached — the configuration on which `Get` and `GetNodeInfo` disagree. -/
def detachedNodeInfo : SnapNodeInfo := ⟨"n1", none, none⟩

/-- The one-entry store holding `detachedNodeInfo`. -/
def detachedStore : NodeStoreMap := [("n1", detachedNodeInfo)]

/-! ## Snapshot `AssumePod` / `ForgetPod` -/

/-- The per-node view the Assume/Forget claim speaks about: the set of
assigned pods and the set of recorded victims (pods speculatively removed
by preemption), identified by pod key. -/
structure NodePodView where
  assignedPods : Finset String
  victims : Finset String
deriving DecidableEq

/-- `framework.CachePodInfo`: the pod (its key and target node) plus the
victim pods it would displace. -/
structure CachePodInfo where
  podKey : String
  nodeName : String
  victims : Finset String
deriving DecidableEq

/-- The snapshot's node-info view: node name to per-node pod view. -/
abbrev SnapshotNodes := List (String × NodePodView)

/-- Replace the view stored under `key` (Go map write). -/
def setNode (s : SnapshotNodes) (key : String) (v : NodePodView) : SnapshotNodes :=
  s.map (fun kv => if kv.1 = key then (kv.1, v) else kv)

/-- Lookup of a node's pod view. -/
def nodesGet (s : SnapshotNodes) (key : String) : Option NodePodView :=
  assocFind key s

/-- Modelled from the spec: `Snapshot.AssumePod` — the concrete stores'
`AssumePod` implementations dispatched by `storeSwitch.Range` are not in
the shown surface; per spec §4.1 it "records a speculative placement (and
removes its victims, if any, from the store's live view)", and errors are
store corruption signals.  It fails when the pod's node is unknown, the
pod is already assumed, a victim is not currently assigned, or a victim
is already recorded as a victim. -/
def assumePod (s : SnapshotNodes) (p : CachePodInfo) : Except String SnapshotNodes :=
  match nodesGet s p.nodeName with
  | none => Except.error "node not found"
  | some ni =>
    if p.podKey ∈ ni.assignedPods then Except.error "pod already assumed"
    else if ¬ p.victims ⊆ ni.assignedPods then Except.error "victim not assigned"
    else if p.victims ∩ ni.victims ≠ ∅ then Except.error "victim already recorded"
    else Except.ok (setNode s p.nodeName
      ⟨insert p.podKey (ni.assignedPods \ p.victims), ni.victims ∪ p.victims⟩)

/-- Modelled from the spec: `Snapshot.ForgetPod` — per spec §4.1 it
"reverses it (removes the pod, restores victims)". -/
def forgetPod (s : SnapshotNodes) (p : CachePodInfo) : SnapshotNodes :=
  match nodesGet s p.nodeName with
  | none => s
  | some ni => setNode s p.nodeName
      ⟨(ni.assignedPods.erase p.podKey) ∪ p.victims, ni.victims \ p.victims⟩

/-- Concrete snapshot state for the Assume/Forget witness: one node with
two assigned pods and no victims. -/
def witnessNodes : SnapshotNodes :=
  [("n1", ⟨{"victim1", "other"}, ∅⟩)]

/-- Concrete pod info for the Assume/Forget witness: pod `p` placed on
`n1` displacing `victim1`. -/
def witnessPodInfo : CachePodInfo := ⟨"p", "n1", {"victim1"}⟩

/-- The snapshot state after assuming `witnessPodInfo` on `witnessNodes`. -/
def witnessNodesAssumed : SnapshotNodes :=
  [("n1", ⟨insert "p" ({"victim1", "other"} \ {"victim1"}), ∅ ∪ {"victim1"}⟩)]

/-! ## NodeSlices (`nodeSlices.update`) -/

/-- The slice of `framework.NodeInfo` that `nodeSlices.update` inspects:
name, the two partition flags (`GetNodeInSchedulerPartition`,
`GetNMNodeInSchedulerPartition`) and the pod lists behind
`GetPodsWithAffinity` / `GetPodsWithRequiredAntiAffinity`. -/
structure SliceNodeInfo where
  name : String
  nodeInPartition : Bool
  nmNodeInPartition : Bool
  podsWithAffinity : List String
  podsWithRequiredAntiAffinity : List String
deriving DecidableEq, Repr

/-- The designated placeholder (`nodestore.GlobalNodeInfoPlaceHolder`):
the Go code compares pointers against a single global object; the model
compares against this designated value. -/
def GlobalNodeInfoPlaceHolder : SliceNodeInfo := ⟨"", false, false, [], []⟩

/-- A `framework.NodeHashSlice`, hash-indexed by node name: a list of
node infos with at most one entry per name. -/
abbrev NodeHashSlice := List SliceNodeInfo

/-- Modelled from the spec: `NodeHashSlice.Add` — idempotent insert keyed
by node name (`framework.NodeHashSlice` is outside the shown surface;
spec §4.3 requires `Add`/`Del` to be idempotent). -/
def sliceAdd (l : NodeHashSlice) (n : SliceNodeInfo) : NodeHashSlice :=
  if l.any (fun m => m.name = n.name) then l else l ++ [n]

/-- Modelled from the spec: `NodeHashSlice.Del` — remove the entry with
the node's name; a no-op when absent. -/
def sliceDel (l : NodeHashSlice) (n : SliceNodeInfo) : NodeHashSlice :=
  l.filter (fun m => m.name ≠ n.name)

/-- `op`: dispatch add or delete on one slice. -/
def sliceOp (slice : NodeHashSlice) (n : SliceNodeInfo) (isAdd : Bool) : NodeHashSlice :=
  if isAdd then sliceAdd slice n else sliceDel slice n

/-- The four derived node index lists of a snapshot. -/
structure NodeSlices where
  inPartitionNodeSlice : NodeHashSlice
  outOfPartitionNodeSlice : NodeHashSlice
  havePodsWithAffinityNodeSlice : NodeHashSlice
  havePodsWithRequiredAntiAffinityNodeSlice : NodeHashSlice
deriving DecidableEq, Repr

/-- `newNodeSlices`: all four lists empty. -/
def newNodeSlices : NodeSlices := ⟨[], [], [], []⟩

/-- `nodeSlices.update`: skips the placeholder; classifies by
`GetNodeInSchedulerPartition() || GetNMNodeInSchedulerPartition()` into
the in-partition or out-of-partition list; independently updates the two
affinity lists when the node currently has such pods. -/
def nodeSlicesUpdate (s : NodeSlices) (n : SliceNodeInfo) (isAdd : Bool) : NodeSlices :=
  if n = GlobalNodeInfoPlaceHolder then s
  else
    let s1 :=
      if n.nodeInPartition || n.nmNodeInPartition then
        { s with inPartitionNodeSlice := sliceOp s.inPartitionNodeSlice n isAdd }
      else
        { s with outOfPartitionNodeSlice := sliceOp s.outOfPartitionNodeSlice n isAdd }
    let s2 :=
      if n.podsWithAffinity.length > 0 then
        { s1 with havePodsWithAffinityNodeSlice :=
            sliceOp s1.havePodsWithAffinityNodeSlice n isAdd }
      else s1
    if n.podsWithRequiredAntiAffinity.length > 0 then
      { s2 with havePodsWithRequiredAntiAffinityNodeSlice :=
          sliceOp s2.havePodsWithRequiredAntiAffinityNodeSlice n isAdd }
    else s2

/-- One node-store event as delivered to the snapshot's `AfterAdd` /
`AfterDelete` hooks: the node info and whether it is an add. -/
abbrev SliceEvent := SliceNodeInfo × Bool

/-- Run a sequence of hook invocations against `NodeSlices`. -/
def runSliceEvents (events : List SliceEvent) : NodeSlices :=
  events.foldl (fun s e => nodeSlicesUpdate s e.1 e.2) newNodeSlices

/-- A snapshot node store together with its derived `NodeSlices`: the
store contents keyed by node name, and the four lists kept in sync by the
`AfterAdd`/`AfterDelete` hooks. -/
structure NodeStoreState where
  nodes : List (String × SliceNodeInfo)
  slices : NodeSlices

/-- Reachable node-store states: starting empty, a node-store add event
fires for a name not yet stored and a delete event fires with the
currently stored node info; each fires the corresponding
`nodeSlicesUpdate` synchronously. -/
inductive Reachable : NodeStoreState → Prop where
  | init : Reachable ⟨[], newNodeSlices⟩
  | add {s : NodeStoreState} (n : SliceNodeInfo) :
      Reachable s →
      assocFind n.name s.nodes = none →
      Reachable ⟨(n.name, n) :: s.nodes, nodeSlicesUpdate s.slices n true⟩
  | del {s : NodeStoreState} (n : SliceNodeInfo) :
      Reachable s →
      assocFind n.name s.nodes = some n →
      Reachable ⟨s.nodes.filter (fun kv => kv.1 ≠ n.name),
        nodeSlicesUpdate s.slices n false⟩

/-- The maintained invariant between the node store and its slices:
every slice entry is the currently stored node of its name, carries the
flags that put it in that slice, and is not the placeholder; conversely
every stored non-placeholder node is listed in the partition list its
flags select. -/
def SlicesInv (s : NodeStoreState) : Prop :=
  (∀ name m, assocFind name s.nodes = some m → m.name = name) ∧
  (∀ m ∈ s.slices.inPartitionNodeSlice,
    assocFind m.name s.nodes = some m ∧
      (m.nodeInPartition || m.nmNodeInPartition) = true ∧ m ≠ GlobalNodeInfoPlaceHolder) ∧
  (∀ m ∈ s.slices.outOfPartitionNodeSlice,
    assocFind m.name s.nodes = some m ∧
      (m.nodeInPartition || m.nmNodeInPartition) = false ∧ m ≠ GlobalNodeInfoPlaceHolder) ∧
  (∀ m ∈ s.slices.havePodsWithAffinityNodeSlice,
    assocFind m.name s.nodes = some m ∧
      m.podsWithAffinity.length > 0 ∧ m ≠ GlobalNodeInfoPlaceHolder) ∧
  (∀ m ∈ s.slices.havePodsWithRequiredAntiAffinityNodeSlice,
    assocFind m.name s.nodes = some m ∧
      m.podsWithRequiredAntiAffinity.length > 0 ∧ m ≠ GlobalNodeInfoPlaceHolder) ∧
  (∀ name m, assocFind name s.nodes = some m → m ≠ GlobalNodeInfoPlaceHolder →
    (((m.nodeInPartition || m.nmNodeInPartition) = true →
        m ∈ s.slices.inPartitionNodeSlice) ∧
     ((m.nodeInPartition || m.nmNodeInPartition) = false →
        m ∈ s.slices.outOfPartitionNodeSlice)))

/-- Membership in any of the four slices. -/
def inAnySlice (s : NodeSlices) (m : SliceNodeInfo) : Prop :=
  m ∈ s.inPartitionNodeSlice ∨ m ∈ s.outOfPartitionNodeSlice ∨
    m ∈ s.havePodsWithAffinityNodeSlice ∨
    m ∈ s.havePodsWithRequiredAntiAffinityNodeSlice

/-- Boolean membership in any of the four slices. -/
def inAnySliceB (s : NodeSlices) (m : SliceNodeInfo) : Bool :=
  decide (m ∈ s.inPartitionNodeSlice) || decide (m ∈ s.outOfPartitionNodeSlice) ||
    decide (m ∈ s.havePodsWithAffinityNodeSlice) ||
    decide (m ∈ s.havePodsWithRequiredAntiAffinityNodeSlice)

/-- The placeholder is in none of the four slices. -/
def placeholderFree (s : NodeSlices) : Prop :=
  GlobalNodeInfoPlaceHolder ∉ s.inPartitionNodeSlice ∧
    GlobalNodeInfoPlaceHolder ∉ s.outOfPartitionNodeSlice ∧
    GlobalNodeInfoPlaceHolder ∉ s.havePodsWithAffinityNodeSlice ∧
    GlobalNodeInfoPlaceHolder ∉ s.havePodsWithRequiredAntiAffinityNodeSlice

/-- An in-partition node used by the reachability witness. -/
def wNode : SliceNodeInfo := ⟨"node1", true, false, [], []⟩

/-- The node-store state after adding `wNode` to the empty store. -/
def wState : NodeStoreState :=
  ⟨[("node1", wNode)], nodeSlicesUpdate newNodeSlices wNode true⟩

/-! ## Katalyst clientset construction (`NewForConfigAndClient`) -/

/-- The fields of `rest.Config` that `NewForConfigAndClient` inspects:
whether a rate limiter is set, the QPS (a float in Go, modelled as a
rational — only its comparison with 0 is used), the burst, and the user
agent. -/
structure RestConfig where
  rateLimiterSet : Bool
  qps : ℚ
  burst : Int
  userAgent : String
deriving DecidableEq

/-- The constructed clientset, recording the config it was built from
(the eight group clients and the discovery client are generated
boilerplate whose construction is modelled as succeeding). -/
structure Clientset where
  config : RestConfig
deriving DecidableEq

/-- The error message of the burst check. -/
def burstErrMsg : String :=
  "burst is required to be greater than 0 when RateLimiter is not set and QPS is set to greater than 0"

/-- `NewForConfigAndClient`: when no rate limiter is set and QPS > 0, a
non-positive burst is rejected before anything is built; otherwise a
token-bucket rate limiter is installed and the clientset is constructed
(the sub-client constructors are modelled as succeeding). -/
def newForConfigAndClient (c : RestConfig) : Except String Clientset :=
  if c.rateLimiterSet = false ∧ 0 < c.qps then
    if c.burst ≤ 0 then Except.error burstErrMsg
    else Except.ok ⟨{ c with rateLimiterSet := true }⟩
  else Except.ok ⟨c⟩

/-- `NewForConfig`: defaults the user agent, then (after building the
shared HTTP client, modelled as succeeding) delegates to
`NewForConfigAndClient`. -/
def newForConfig (c : RestConfig) : Except String Clientset :=
  let c' := if c.userAgent = "" then { c with userAgent := "DefaultKubernetesUserAgent" } else c
  newForConfigAndClient c'

/-! ## Scorer lemmas and theorems -/

/-- The Go-style accumulator loop computes the pair
(weighted score sum, weight sum). -/
theorem foldl_weighted_acc (f g : ResourceSpec → Nat) (l : List ResourceSpec) (a b : Nat) :
    l.foldl (fun (acc : Nat × Nat) e => (acc.1 + f e, acc.2 + g e)) (a, b) =
      (a + (l.map f).sum, b + (l.map g).sum) := by
  induction l generalizing a b with
  | nil => simp
  | cons e t ih => simp [ih, Nat.add_assoc]

/-- C1 (counterexample): the claim's formula — `used` summing only the
requests of assigned matching-type pods, with round-to-nearest divisions —
yields 100 for an empty best-effort pod on an empty 4000m/16Gi node,
whereas the scorer (calibrated by the repo test `TestLoadAware`, which
expects exactly 97 for this input) yields 97. -/
theorem loadaware_claim_formula_counterexample :
    claimScore defaultResourceSpec (testNode "machine1" []) = 100 ∧
    loadAwareScore defaultResourceSpec beEmptyPod (testNode "machine1" []) = 97 ∧
    (100 : Nat) ≠ 97 := by
  refine ⟨by decide, by decide, by decide⟩

/-- C1 (amended): for every node with positive allocatable capacity in
each configured resource, the load-aware score equals the floor-division
weighted average `(Σ weight_i * resourceScore_i) / (Σ weight_i)` of the
floor-division per-resource scores `((capacity - used) * 100) / capacity`,
where `used` sums the non-zero-defaulted requests of the node's assigned
pods of matching resource type plus the scored pod's own
non-zero-defaulted request when its type matches. -/
theorem loadaware_score_eq_amended_formula (spec : List ResourceSpec) (pod : PodData)
    (n : ScoringNode) (_h : ∀ e ∈ spec, 0 < n.allocatable e.name) :
    loadAwareScore spec pod n = amendedScore spec pod n := by
  unfold loadAwareScore amendedScore
  rw [foldl_weighted_acc]
  simp [resourceScore]

/-- Witness for `loadaware_score_eq_amended_formula` at the first test
scenario's node. -/
theorem loadaware_score_eq_amended_formula_witness :
    (∀ e ∈ defaultResourceSpec, 0 < (testNode "machine1" []).allocatable e.name) ∧
    loadAwareScore defaultResourceSpec beEmptyPod (testNode "machine1" []) =
      amendedScore defaultResourceSpec beEmptyPod (testNode "machine1" []) :=
  ⟨by decide, loadaware_score_eq_amended_formula defaultResourceSpec beEmptyPod
    (testNode "machine1" []) (by decide)⟩

/-- C2: scoring the empty best-effort pod against a 4000m/16Gi node with
no pods assigned, under resource spec {CPU weight 1, Memory weight 1,
BestEffort}, returns 97 — for every node of that configuration, whatever
its name. -/
theorem loadaware_empty_node_score (name : String) :
    loadAwareScore defaultResourceSpec beEmptyPod (testNode name []) = 97 := by
  simp [loadAwareScore, resourceScore, usedBy, nonZeroRequest, defaultResourceSpec,
    testNode, ScoringNode.allocatable, beEmptyPod]

/-- C3: pods whose resource type differs from every configured resource
type are excluded from the utilization sum — prepending such a pod never
changes the score; concretely, the two 4000m/16Gi nodes hosting the
Guaranteed pods `gtPod1` resp. `gtPod2` both score 84 for the best-effort
pod `bePod`, the same score as the corresponding empty nodes. -/
theorem loadaware_type_filtering :
    (∀ (spec : List ResourceSpec) (pod : PodData) (n : ScoringNode) (q : PodData),
      (∀ e ∈ spec, e.resourceType ≠ q.resourceType) →
      loadAwareScore spec pod
        ⟨n.name, n.allocatableMilliCPU, n.allocatableMemory, q :: n.pods⟩ =
        loadAwareScore spec pod n) ∧
    (∀ name : String,
      loadAwareScore defaultResourceSpec bePod (testNode name [gtPod1]) = 84 ∧
      loadAwareScore defaultResourceSpec bePod (testNode name [gtPod2]) = 84 ∧
      loadAwareScore defaultResourceSpec bePod (testNode name []) = 84) := by
  constructor
  · intro spec pod n q hq
    unfold loadAwareScore
    rw [foldl_weighted_acc, foldl_weighted_acc]
    have hres : ∀ e ∈ spec,
        resourceScore e pod ⟨n.name, n.allocatableMilliCPU, n.allocatableMemory, q :: n.pods⟩ =
          resourceScore e pod n := by
      intro e he
      have hne : ¬ (q.resourceType = e.resourceType) := fun hEq => hq e he hEq.symm
      simp [resourceScore, usedBy, ScoringNode.allocatable, List.filter_cons, hne]
    have hmap : (spec.map (fun e => e.weight *
        resourceScore e pod ⟨n.name, n.allocatableMilliCPU, n.allocatableMemory, q :: n.pods⟩)) =
        spec.map (fun e => e.weight * resourceScore e pod n) := by
      apply List.map_congr_left
      intro e he
      rw [hres e he]
    rw [hmap]
  · intro name
    refine ⟨?_, ?_, ?_⟩ <;>
      simp [loadAwareScore, resourceScore, usedBy, nonZeroRequest, defaultResourceSpec,
        testNode, ScoringNode.allocatable, bePod, gtPod1, gtPod2]

/-- Witness for `loadaware_type_filtering` at the third test scenario's
first node. -/
theorem loadaware_type_filtering_witness :
    (∀ e ∈ defaultResourceSpec, e.resourceType ≠ gtPod1.resourceType) ∧
    loadAwareScore defaultResourceSpec bePod
      ⟨"machine1", 4000, 17179869184, [gtPod1]⟩ =
      loadAwareScore defaultResourceSpec bePod (testNode "machine1" []) :=
  ⟨by decide, loadaware_type_filtering.1 defaultResourceSpec bePod
    (testNode "machine1" []) gtPod1 (by decide)⟩

/-! ## Snapshot lookup theorems -/

/-- A store holding one `NodeInfo` with a raw node object attached. -/
def attachedStore : NodeStoreMap := [("n2", ⟨"n2", some ⟨"n2"⟩, none⟩)]

/-- C7: `Snapshot.Get(name)` errors exactly when no node of that name in
the node store has a raw node object or a node-management object
attached; otherwise it returns that node's `NodeInfo` with no error. -/
theorem snapshot_get_not_found_iff (store : NodeStoreMap) (name : String) :
    (isError (snapshotGet store name) = true ↔
      ∀ ni, nodeStoreGet store name = some ni → ni.node = none ∧ ni.nmNode = none) ∧
    (∀ ni, snapshotGet store name = Except.ok ni →
      nodeStoreGet store name = some ni ∧ (ni.node.isSome || ni.nmNode.isSome) = true) := by
  cases h : nodeStoreGet store name with
  | none =>
    refine ⟨?_, ?_⟩
    · simp [snapshotGet, h, isError]
    · intro ni hok
      simp [snapshotGet, h] at hok
  | some ni =>
    have hsnap : snapshotGet store name =
        if ni.node.isSome || ni.nmNode.isSome then Except.ok ni
        else Except.error ("nodeinfo not found for node name \"" ++ name ++ "\"") := by
      simp [snapshotGet, h]
    by_cases hb : (ni.node.isSome || ni.nmNode.isSome) = true
    · rw [hsnap, if_pos hb]
      refine ⟨?_, ?_⟩
      · refine iff_of_false (by simp [isError]) ?_
        intro hall
        obtain ⟨h1, h2⟩ := hall ni rfl
        rw [h1, h2] at hb
        simp at hb
      · intro ni' hok
        cases hok
        exact ⟨rfl, hb⟩
    · have hbf : (ni.node.isSome || ni.nmNode.isSome) = false := by
        cases hx : (ni.node.isSome || ni.nmNode.isSome)
        · rfl
        · exact absurd hx hb
      have hn1 : ni.node = none := by
        cases ho : ni.node
        · rfl
        · rw [ho] at hbf; simp at hbf
      have hn2 : ni.nmNode = none := by
        cases ho : ni.nmNode
        · rfl
        · rw [ho] at hbf; simp at hbf
      rw [hsnap, if_neg hb]
      refine ⟨?_, ?_⟩
      · refine iff_of_true rfl ?_
        intro ni' hni'
        cases hni'
        exact ⟨hn1, hn2⟩
      · intro ni' hok
        exact Except.noConfusion hok

/-- Witness for `snapshot_get_not_found_iff`: on `attachedStore` the
lookup of `"n2"` succeeds and the theorem recovers the stored entry. -/
theorem snapshot_get_not_found_iff_witness :
    nodeStoreGet attachedStore "n2" = some ⟨"n2", some ⟨"n2"⟩, none⟩ ∧
    ((⟨"n2", some ⟨"n2"⟩, none⟩ : SnapNodeInfo).node.isSome ||
      (⟨"n2", some ⟨"n2"⟩, none⟩ : SnapNodeInfo).nmNode.isSome) = true :=
  (snapshot_get_not_found_iff attachedStore "n2").2 ⟨"n2", some ⟨"n2"⟩, none⟩ rfl

/-- C8: `Snapshot.GetNodeInfo` is error-free and returns exactly the node
store's `NodeInfo` (`none` when absent); on a store whose entry has
neither a raw node nor an NMNode attached, `GetNodeInfo` returns a
present `NodeInfo` while `Get` returns the not-found error for the same
name — the two lookups disagree on node existence. -/
theorem snapshot_getnodeinfo_vs_get (store : NodeStoreMap) (name : String) :
    snapshotGetNodeInfo store name = nodeStoreGet store name ∧
    (snapshotGetNodeInfo detachedStore "n1" = some detachedNodeInfo ∧
      isError (snapshotGet detachedStore "n1") = true ∧
      detachedNodeInfo.node = none ∧ detachedNodeInfo.nmNode = none) :=
  ⟨rfl, by decide⟩

/-! ## Assume/Forget inverse theorems -/

/-- Lookup after a keyed replacement: the replaced key reads the new
value when present; other keys are untouched. -/
theorem nodesGet_setNode (s : SnapshotNodes) (k : String) (v : NodePodView) (k' : String) :
    nodesGet (setNode s k v) k' =
      if k' = k then (nodesGet s k').map (fun _ => v) else nodesGet s k' := by
  induction s with
  | nil => simp [setNode, nodesGet, assocFind]
  | cons kv t ih =>
    obtain ⟨a, b⟩ := kv
    rw [show setNode ((a, b) :: t) k v =
        (if a = k then (a, v) else (a, b)) :: setNode t k v from rfl]
    rw [show nodesGet ((a, b) :: t) k' = (if k' = a then some b else nodesGet t k')
      from rfl]
    by_cases hak : a = k
    · rw [if_pos hak]
      rw [show nodesGet ((a, v) :: setNode t k v) k' =
          (if k' = a then some v else nodesGet (setNode t k v) k') from rfl]
      by_cases hk'a : k' = a
      · have hk'k : k' = k := hk'a.trans hak
        simp [hk'a, hk'k, hak]
      · have hk'k : ¬ k' = k := fun hc => hk'a (hc.trans hak.symm)
        simp [hk'a, hk'k, ih]
    · rw [if_neg hak]
      rw [show nodesGet ((a, b) :: setNode t k v) k' =
          (if k' = a then some b else nodesGet (setNode t k v) k') from rfl]
      by_cases hk'a : k' = a
      · have hk'k : ¬ k' = k := fun hc => hak (hk'a.symm.trans hc)
        simp [hk'a, hk'k, hak]
      · simp [hk'a, ih]

/-- C4: when `AssumePod` succeeds, a subsequent `ForgetPod` of the same
pod info restores the snapshot's node-info view — assigned-pod set and
victim set of every node — exactly to its pre-Assume state. -/
theorem snapshot_assume_forget_inverse (s : SnapshotNodes) (p : CachePodInfo)
    (s' : SnapshotNodes) (h : assumePod s p = Except.ok s') (name : String) :
    nodesGet (forgetPod s' p) name = nodesGet s name := by
  unfold assumePod at h
  cases hni : nodesGet s p.nodeName with
  | none => rw [hni] at h; cases h
  | some ni =>
    obtain ⟨A, W⟩ := ni
    rw [hni] at h
    dsimp only at h
    by_cases h1 : p.podKey ∈ A
    · rw [if_pos h1] at h; cases h
    rw [if_neg h1] at h
    by_cases h2 : p.victims ⊆ A
    swap
    · rw [if_pos h2] at h; cases h
    rw [if_neg (not_not_intro h2)] at h
    by_cases h3 : p.victims ∩ W = ∅
    swap
    · rw [if_pos h3] at h; cases h
    rw [if_neg (not_not_intro h3)] at h
    injection h with h
    have hs' : s' = setNode s p.nodeName
        ⟨insert p.podKey (A \ p.victims), W ∪ p.victims⟩ := h.symm
    have hlook : nodesGet s' p.nodeName =
        some ⟨insert p.podKey (A \ p.victims), W ∪ p.victims⟩ := by
      rw [hs', nodesGet_setNode, if_pos rfl, hni]
      rfl
    have hA : (insert p.podKey (A \ p.victims)).erase p.podKey ∪ p.victims = A := by
      rw [Finset.erase_insert (fun hm => h1 (Finset.mem_sdiff.mp hm).1)]
      exact Finset.sdiff_union_of_subset h2
    have hW : (W ∪ p.victims) \ p.victims = W := by
      ext x
      simp only [Finset.mem_sdiff, Finset.mem_union]
      constructor
      · rintro ⟨hx | hx, hnx⟩
        · exact hx
        · exact absurd hx hnx
      · intro hx
        refine ⟨Or.inl hx, fun hv => ?_⟩
        have : x ∈ p.victims ∩ W := Finset.mem_inter.mpr ⟨hv, hx⟩
        rw [h3] at this
        exact absurd this (Finset.not_mem_empty x)
    unfold forgetPod
    rw [hlook]
    simp only [hA, hW]
    rw [hs', nodesGet_setNode, nodesGet_setNode]
    by_cases hname : name = p.nodeName
    · subst hname
      rw [if_pos rfl, if_pos rfl, hni]
      rfl
    · rw [if_neg hname, if_neg hname]

/-- Witness for `snapshot_assume_forget_inverse`: assuming then
forgetting `witnessPodInfo` on `witnessNodes` restores node `n1`. -/
theorem snapshot_assume_forget_inverse_witness :
    assumePod witnessNodes witnessPodInfo = Except.ok witnessNodesAssumed ∧
    nodesGet (forgetPod witnessNodesAssumed witnessPodInfo) "n1" =
      nodesGet witnessNodes "n1" :=
  ⟨rfl, snapshot_assume_forget_inverse witnessNodes witnessPodInfo
    witnessNodesAssumed rfl "n1"⟩

/-! ## NodeSlices lemmas and theorems -/

/-- Unfolding of `nodeSlicesUpdate` off the placeholder: each list is
updated exactly when its condition holds. -/
theorem nodeSlicesUpdate_eq (s : NodeSlices) (n : SliceNodeInfo) (b : Bool)
    (hph : n ≠ GlobalNodeInfoPlaceHolder) :
    nodeSlicesUpdate s n b =
      { inPartitionNodeSlice :=
          if (n.nodeInPartition || n.nmNodeInPartition) = true then
            sliceOp s.inPartitionNodeSlice n b
          else s.inPartitionNodeSlice,
        outOfPartitionNodeSlice :=
          if (n.nodeInPartition || n.nmNodeInPartition) = true then
            s.outOfPartitionNodeSlice
          else sliceOp s.outOfPartitionNodeSlice n b,
        havePodsWithAffinityNodeSlice :=
          if n.podsWithAffinity.length > 0 then
            sliceOp s.havePodsWithAffinityNodeSlice n b
          else s.havePodsWithAffinityNodeSlice,
        havePodsWithRequiredAntiAffinityNodeSlice :=
          if n.podsWithRequiredAntiAffinity.length > 0 then
            sliceOp s.havePodsWithRequiredAntiAffinityNodeSlice n b
          else s.havePodsWithRequiredAntiAffinityNodeSlice } := by
  unfold nodeSlicesUpdate
  rw [if_neg hph]
  by_cases hp : (n.nodeInPartition || n.nmNodeInPartition) = true <;>
    by_cases ha : n.podsWithAffinity.length > 0 <;>
      by_cases hr : n.podsWithRequiredAntiAffinity.length > 0 <;>
        simp [hp, ha, hr]

/-- Membership after a slice operation comes from the old slice or is the
operated node. -/
theorem mem_of_mem_sliceOp {l : NodeHashSlice} {n x : SliceNodeInfo} {b : Bool}
    (h : x ∈ sliceOp l n b) : x ∈ l ∨ x = n := by
  unfold sliceOp sliceAdd sliceDel at h
  cases b with
  | true =>
    simp only [if_true] at h
    by_cases hany : (l.any fun m => m.name = n.name) = true
    · rw [if_pos hany] at h
      exact Or.inl h
    · rw [if_neg hany] at h
      rcases List.mem_append.mp h with hl | hr
      · exact Or.inl hl
      · exact Or.inr (List.mem_singleton.mp hr)
  | false =>
    simp only [Bool.false_eq_true, if_false] at h
    exact Or.inl (List.mem_filter.mp h).1

/-- `placeholderFree` is preserved by every `nodeSlicesUpdate` call. -/
theorem placeholderFree_update (s : NodeSlices) (n : SliceNodeInfo) (b : Bool)
    (h : placeholderFree s) : placeholderFree (nodeSlicesUpdate s n b) := by
  by_cases hph : n = GlobalNodeInfoPlaceHolder
  · unfold nodeSlicesUpdate
    rw [if_pos hph]
    exact h
  · obtain ⟨h1, h2, h3, h4⟩ := h
    rw [nodeSlicesUpdate_eq s n b hph]
    refine ⟨?_, ?_, ?_, ?_⟩ <;> dsimp only <;> split_ifs <;>
      first
        | assumption
        | (intro hmem
           rcases mem_of_mem_sliceOp hmem with hold | hEq
           · first
              | exact h1 hold
              | exact h2 hold
              | exact h3 hold
              | exact h4 hold
           · exact hph hEq.symm)

/-- C6: over every sequence of node-store add/delete events, the
designated placeholder node never appears in any of the four `NodeSlices`
lists. -/
theorem placeholder_excluded_from_slices (events : List SliceEvent) :
    inAnySliceB (runSliceEvents events) GlobalNodeInfoPlaceHolder = false := by
  have hfree : placeholderFree (runSliceEvents events) := by
    unfold runSliceEvents
    have hgen : ∀ (evs : List SliceEvent) (s : NodeSlices), placeholderFree s →
        placeholderFree (evs.foldl (fun s e => nodeSlicesUpdate s e.1 e.2) s) := by
      intro evs
      induction evs with
      | nil => intro s hs; exact hs
      | cons e t ih =>
        intro s hs
        exact ih _ (placeholderFree_update s e.1 e.2 hs)
    exact hgen events newNodeSlices ⟨List.not_mem_nil _, List.not_mem_nil _,
      List.not_mem_nil _, List.not_mem_nil _⟩
  obtain ⟨h1, h2, h3, h4⟩ := hfree
  simp [inAnySliceB, h1, h2, h3, h4]

/-! ## Clientset construction theorems -/

/-- C9: `NewForConfigAndClient` (and `NewForConfig`, which delegates to
it) fails at construction — error, no clientset — whenever the config has
no rate limiter, positive QPS and non-positive burst. -/
theorem clientset_burst_check (c : RestConfig) (h1 : c.rateLimiterSet = false)
    (h2 : 0 < c.qps) (h3 : c.burst ≤ 0) :
    newForConfigAndClient c = Except.error burstErrMsg ∧
      newForConfig c = Except.error burstErrMsg := by
  have hc : newForConfigAndClient c = Except.error burstErrMsg := by
    unfold newForConfigAndClient
    rw [if_pos ⟨h1, h2⟩, if_pos h3]
  refine ⟨hc, ?_⟩
  unfold newForConfig
  by_cases hu : c.userAgent = ""
  · rw [if_pos hu]
    unfold newForConfigAndClient
    rw [if_pos ⟨h1, h2⟩, if_pos h3]
  · rw [if_neg hu]
    exact hc

/-- Witness for `clientset_burst_check`: a config with no rate limiter,
QPS 5 and burst 0 is rejected. -/
theorem clientset_burst_check_witness :
    (⟨false, 5, 0, ""⟩ : RestConfig).rateLimiterSet = false ∧
      (0 : ℚ) < (⟨false, 5, 0, ""⟩ : RestConfig).qps ∧
      (⟨false, 5, 0, ""⟩ : RestConfig).burst ≤ 0 ∧
      newForConfigAndClient ⟨false, 5, 0, ""⟩ = Except.error burstErrMsg :=
  ⟨rfl, by norm_num, by norm_num,
    (clientset_burst_check ⟨false, 5, 0, ""⟩ rfl (by norm_num) (by norm_num)).1⟩

/-! ## Partition exclusivity -/

/-- Lookup after filtering out one key. -/
theorem assocFind_filter_ne {β : Type} (key knm : String) (l : List (String × β)) :
    assocFind key (l.filter (fun kv => kv.1 ≠ knm)) =
      if key = knm then none else assocFind key l := by
  induction l with
  | nil => simp [assocFind]
  | cons kv t ih =>
    obtain ⟨a, b⟩ := kv
    by_cases hak : a = knm
    · rw [show ((a, b) :: t).filter (fun kv => kv.1 ≠ knm) =
          t.filter (fun kv => kv.1 ≠ knm) from by simp [List.filter_cons, hak]]
      rw [ih]
      by_cases hk : key = knm
      · rw [if_pos hk, if_pos hk]
      · rw [if_neg hk, if_neg hk]
        rw [show assocFind key ((a, b) :: t) =
            (if key = a then some b else assocFind key t) from rfl]
        have hka : ¬ key = a := fun hc => hk (hc.trans hak)
        rw [if_neg hka]
    · rw [show ((a, b) :: t).filter (fun kv => kv.1 ≠ knm) =
          (a, b) :: t.filter (fun kv => kv.1 ≠ knm) from by simp [List.filter_cons, hak]]
      rw [show assocFind key ((a, b) :: (t.filter (fun kv => kv.1 ≠ knm))) =
          (if key = a then some b else assocFind key (t.filter (fun kv => kv.1 ≠ knm)))
        from rfl]
      rw [show assocFind key ((a, b) :: t) =
          (if key = a then some b else assocFind key t) from rfl]
      by_cases hka : key = a
      · have hk : ¬ key = knm := fun hc => hak (hka.symm.trans hc)
        rw [if_pos hka, if_neg hk, if_pos hka]
      · rw [if_neg hka, if_neg hka, ih]

/-- Membership in a `sliceDel` result. -/
theorem mem_sliceDel {l : NodeHashSlice} {n x : SliceNodeInfo} :
    x ∈ sliceDel l n ↔ x ∈ l ∧ x.name ≠ n.name := by
  simp [sliceDel, List.mem_filter]

/-- When no entry of the slice carries the node's name, `sliceAdd`
appends. -/
theorem sliceAdd_eq_append {l : NodeHashSlice} {n : SliceNodeInfo}
    (h : ∀ m ∈ l, m.name ≠ n.name) : sliceAdd l n = l ++ [n] := by
  have hc : ¬ (l.any (fun m => m.name = n.name)) = true := by
    rw [List.any_eq_true]
    rintro ⟨m, hm, hEq⟩
    exact h m hm (of_decide_eq_true hEq)
  unfold sliceAdd
  rw [if_neg hc]

/-- The node-store invariant holds in every reachable state. -/
theorem slicesInv_of_reachable {s : NodeStoreState} (h : Reachable s) : SlicesInv s := by
  induction h with
  | init =>
    refine ⟨?_, ?_, ?_, ?_, ?_, ?_⟩
    · intro name m hm
      exact Option.noConfusion hm
    · intro m hm
      exact absurd hm (List.not_mem_nil m)
    · intro m hm
      exact absurd hm (List.not_mem_nil m)
    · intro m hm
      exact absurd hm (List.not_mem_nil m)
    · intro m hm
      exact absurd hm (List.not_mem_nil m)
    · intro name m hm
      exact Option.noConfusion hm
  | @add s n hr hlook ih =>
    obtain ⟨ih0, ih1, ih2, ih3, ih4, ih5⟩ := ih
    have hne : ∀ (m : SliceNodeInfo), assocFind m.name s.nodes = some m → m.name ≠ n.name := by
      intro m hm hEq
      rw [hEq, hlook] at hm
      exact Option.noConfusion hm
    have hcons : ∀ (key : String), assocFind key ((n.name, n) :: s.nodes) =
        if key = n.name then some n else assocFind key s.nodes := fun _ => rfl
    have hkeep : ∀ (m : SliceNodeInfo), assocFind m.name s.nodes = some m →
        assocFind m.name ((n.name, n) :: s.nodes) = some m := by
      intro m hm
      rw [hcons, if_neg (hne m hm)]
      exact hm
    by_cases hph : n = GlobalNodeInfoPlaceHolder
    · rw [show nodeSlicesUpdate s.slices n true = s.slices from by
        unfold nodeSlicesUpdate; rw [if_pos hph]]
      refine ⟨?_, ?_, ?_, ?_, ?_, ?_⟩
      · intro name m hm
        rw [hcons] at hm
        by_cases hk : name = n.name
        · rw [if_pos hk] at hm
          injection hm with hEqn
          rw [← hEqn, hk]
        · rw [if_neg hk] at hm
          exact ih0 name m hm
      · intro m hm
        obtain ⟨hl, hf, hnp⟩ := ih1 m hm
        exact ⟨hkeep m hl, hf, hnp⟩
      · intro m hm
        obtain ⟨hl, hf, hnp⟩ := ih2 m hm
        exact ⟨hkeep m hl, hf, hnp⟩
      · intro m hm
        obtain ⟨hl, hf, hnp⟩ := ih3 m hm
        exact ⟨hkeep m hl, hf, hnp⟩
      · intro m hm
        obtain ⟨hl, hf, hnp⟩ := ih4 m hm
        exact ⟨hkeep m hl, hf, hnp⟩
      · intro name m hm hmp
        rw [hcons] at hm
        by_cases hk : name = n.name
        · rw [if_pos hk] at hm
          injection hm with hEqn
          exact absurd hph (by rw [hEqn]; exact hmp)
        · rw [if_neg hk] at hm
          exact ih5 name m hm hmp
    · have hnin : ∀ m ∈ s.slices.inPartitionNodeSlice, m.name ≠ n.name :=
        fun m hm => hne m (ih1 m hm).1
      have hnout : ∀ m ∈ s.slices.outOfPartitionNodeSlice, m.name ≠ n.name :=
        fun m hm => hne m (ih2 m hm).1
      have hnaff : ∀ m ∈ s.slices.havePodsWithAffinityNodeSlice, m.name ≠ n.name :=
        fun m hm => hne m (ih3 m hm).1
      have hnanti : ∀ m ∈ s.slices.havePodsWithRequiredAntiAffinityNodeSlice, m.name ≠ n.name :=
        fun m hm => hne m (ih4 m hm).1
      have hself : assocFind n.name ((n.name, n) :: s.nodes) = some n := by
        rw [hcons, if_pos rfl]
      rw [nodeSlicesUpdate_eq s.slices n true hph]
      refine ⟨?_, ?_, ?_, ?_, ?_, ?_⟩
      · intro name m hm
        rw [hcons] at hm
        by_cases hk : name = n.name
        · rw [if_pos hk] at hm
          injection hm with hEqn
          rw [← hEqn, hk]
        · rw [if_neg hk] at hm
          exact ih0 name m hm
      · dsimp only
        by_cases hp : (n.nodeInPartition || n.nmNodeInPartition) = true
        · rw [if_pos hp, show sliceOp s.slices.inPartitionNodeSlice n true =
            sliceAdd s.slices.inPartitionNodeSlice n from rfl, sliceAdd_eq_append hnin]
          intro m hm
          rcases List.mem_append.mp hm with hml | hmr
          · obtain ⟨hl, hf, hnp⟩ := ih1 m hml
            exact ⟨hkeep m hl, hf, hnp⟩
          · have hmn := List.mem_singleton.mp hmr
            subst hmn
            exact ⟨hself, hp, hph⟩
        · rw [if_neg hp]
          intro m hm
          obtain ⟨hl, hf, hnp⟩ := ih1 m hm
          exact ⟨hkeep m hl, hf, hnp⟩
      · dsimp only
        by_cases hp : (n.nodeInPartition || n.nmNodeInPartition) = true
        · rw [if_pos hp]
          intro m hm
          obtain ⟨hl, hf, hnp⟩ := ih2 m hm
          exact ⟨hkeep m hl, hf, hnp⟩
        · rw [if_neg hp, show sliceOp s.slices.outOfPartitionNodeSlice n true =
            sliceAdd s.slices.outOfPartitionNodeSlice n from rfl, sliceAdd_eq_append hnout]
          intro m hm
          rcases List.mem_append.mp hm with hml | hmr
          · obtain ⟨hl, hf, hnp⟩ := ih2 m hml
            exact ⟨hkeep m hl, hf, hnp⟩
          · have hmn := List.mem_singleton.mp hmr
            subst hmn
            have hp' : (m.nodeInPartition || m.nmNodeInPartition) = false := by
              cases hx : (m.nodeInPartition || m.nmNodeInPartition)
              · rfl
              · exact absurd hx hp
            exact ⟨hself, hp', hph⟩
      · dsimp only
        by_cases haf : n.podsWithAffinity.length > 0
        · rw [if_pos haf, show sliceOp s.slices.havePodsWithAffinityNodeSlice n true =
            sliceAdd s.slices.havePodsWithAffinityNodeSlice n from rfl, sliceAdd_eq_append hnaff]
          intro m hm
          rcases List.mem_append.mp hm with hml | hmr
          · obtain ⟨hl, hf, hnp⟩ := ih3 m hml
            exact ⟨hkeep m hl, hf, hnp⟩
          · have hmn := List.mem_singleton.mp hmr
            subst hmn
            exact ⟨hself, haf, hph⟩
        · rw [if_neg haf]
          intro m hm
          obtain ⟨hl, hf, hnp⟩ := ih3 m hm
          exact ⟨hkeep m hl, hf, hnp⟩
      · dsimp only
        by_cases har : n.podsWithRequiredAntiAffinity.length > 0
        · rw [if_pos har,
            show sliceOp s.slices.havePodsWithRequiredAntiAffinityNodeSlice n true =
              sliceAdd s.slices.havePodsWithRequiredAntiAffinityNodeSlice n from rfl,
            sliceAdd_eq_append hnanti]
          intro m hm
          rcases List.mem_append.mp hm with hml | hmr
          · obtain ⟨hl, hf, hnp⟩ := ih4 m hml
            exact ⟨hkeep m hl, hf, hnp⟩
          · have hmn := List.mem_singleton.mp hmr
            subst hmn
            exact ⟨hself, har, hph⟩
        · rw [if_neg har]
          intro m hm
          obtain ⟨hl, hf, hnp⟩ := ih4 m hm
          exact ⟨hkeep m hl, hf, hnp⟩
      · intro name m hm hmp
        dsimp only
        rw [hcons] at hm
        by_cases hk : name = n.name
        · rw [if_pos hk] at hm
          injection hm with hEqn
          subst hEqn
          constructor
          · intro hf
            rw [if_pos hf, show sliceOp s.slices.inPartitionNodeSlice n true =
              sliceAdd s.slices.inPartitionNodeSlice n from rfl, sliceAdd_eq_append hnin]
            exact List.mem_append.mpr (Or.inr (List.mem_singleton.mpr rfl))
          · intro hf
            have hf' : ¬ (n.nodeInPartition || n.nmNodeInPartition) = true := by
              rw [hf]; exact Bool.false_ne_true
            rw [if_neg hf', show sliceOp s.slices.outOfPartitionNodeSlice n true =
              sliceAdd s.slices.outOfPartitionNodeSlice n from rfl, sliceAdd_eq_append hnout]
            exact List.mem_append.mpr (Or.inr (List.mem_singleton.mpr rfl))
        · rw [if_neg hk] at hm
          obtain ⟨hin, hout⟩ := ih5 name m hm hmp
          constructor
          · intro hf
            have hmem := hin hf
            by_cases hp : (n.nodeInPartition || n.nmNodeInPartition) = true
            · rw [if_pos hp, show sliceOp s.slices.inPartitionNodeSlice n true =
                sliceAdd s.slices.inPartitionNodeSlice n from rfl, sliceAdd_eq_append hnin]
              exact List.mem_append.mpr (Or.inl hmem)
            · rw [if_neg hp]
              exact hmem
          · intro hf
            have hmem := hout hf
            by_cases hp : (n.nodeInPartition || n.nmNodeInPartition) = true
            · rw [if_pos hp]
              exact hmem
            · rw [if_neg hp, show sliceOp s.slices.outOfPartitionNodeSlice n true =
                sliceAdd s.slices.outOfPartitionNodeSlice n from rfl, sliceAdd_eq_append hnout]
              exact List.mem_append.mpr (Or.inl hmem)
  | @del s n hr hlook ih =>
    obtain ⟨ih0, ih1, ih2, ih3, ih4, ih5⟩ := ih
    have huniq : ∀ (m : SliceNodeInfo), assocFind m.name s.nodes = some m →
        m.name = n.name → m = n := by
      intro m hm hEq
      rw [hEq, hlook] at hm
      injection hm with hmn
      exact hmn.symm
    have hkeepD : ∀ (m : SliceNodeInfo), m.name ≠ n.name →
        assocFind m.name s.nodes = some m →
        assocFind m.name (s.nodes.filter (fun kv => kv.1 ≠ n.name)) = some m := by
      intro m hmn hm
      rw [assocFind_filter_ne, if_neg hmn]
      exact hm
    by_cases hph : n = GlobalNodeInfoPlaceHolder
    · rw [show nodeSlicesUpdate s.slices n false = s.slices from by
        unfold nodeSlicesUpdate; rw [if_pos hph]]
      have hNotPh : ∀ (m : SliceNodeInfo), assocFind m.name s.nodes = some m →
          m ≠ GlobalNodeInfoPlaceHolder → m.name ≠ n.name := by
        intro m hl hnp hEq
        exact hnp (by rw [huniq m hl hEq, hph])
      refine ⟨?_, ?_, ?_, ?_, ?_, ?_⟩
      · intro name m hm
        rw [assocFind_filter_ne] at hm
        by_cases hk : name = n.name
        · rw [if_pos hk] at hm
          exact Option.noConfusion hm
        · rw [if_neg hk] at hm
          exact ih0 name m hm
      · intro m hm
        obtain ⟨hl, hf, hnp⟩ := ih1 m hm
        exact ⟨hkeepD m (hNotPh m hl hnp) hl, hf, hnp⟩
      · intro m hm
        obtain ⟨hl, hf, hnp⟩ := ih2 m hm
        exact ⟨hkeepD m (hNotPh m hl hnp) hl, hf, hnp⟩
      · intro m hm
        obtain ⟨hl, hf, hnp⟩ := ih3 m hm
        exact ⟨hkeepD m (hNotPh m hl hnp) hl, hf, hnp⟩
      · intro m hm
        obtain ⟨hl, hf, hnp⟩ := ih4 m hm
        exact ⟨hkeepD m (hNotPh m hl hnp) hl, hf, hnp⟩
      · intro name m hm hmp
        rw [assocFind_filter_ne] at hm
        by_cases hk : name = n.name
        · rw [if_pos hk] at hm
          exact Option.noConfusion hm
        · rw [if_neg hk] at hm
          exact ih5 name m hm hmp
    · rw [nodeSlicesUpdate_eq s.slices n false hph]
      refine ⟨?_, ?_, ?_, ?_, ?_, ?_⟩
      · intro name m hm
        rw [assocFind_filter_ne] at hm
        by_cases hk : name = n.name
        · rw [if_pos hk] at hm
          exact Option.noConfusion hm
        · rw [if_neg hk] at hm
          exact ih0 name m hm
      · dsimp only
        by_cases hp : (n.nodeInPartition || n.nmNodeInPartition) = true
        · rw [if_pos hp, show sliceOp s.slices.inPartitionNodeSlice n false =
            sliceDel s.slices.inPartitionNodeSlice n from rfl]
          intro m hm
          obtain ⟨hml, hmn⟩ := mem_sliceDel.mp hm
          obtain ⟨hl, hf, hnp⟩ := ih1 m hml
          exact ⟨hkeepD m hmn hl, hf, hnp⟩
        · rw [if_neg hp]
          intro m hm
          obtain ⟨hl, hf, hnp⟩ := ih1 m hm
          have hmn : m.name ≠ n.name := by
            intro hEq
            have hmEq := huniq m hl hEq
            rw [hmEq] at hf
            exact hp hf
          exact ⟨hkeepD m hmn hl, hf, hnp⟩
      · dsimp only
        by_cases hp : (n.nodeInPartition || n.nmNodeInPartition) = true
        · rw [if_pos hp]
          intro m hm
          obtain ⟨hl, hf, hnp⟩ := ih2 m hm
          have hmn : m.name ≠ n.name := by
            intro hEq
            have hmEq := huniq m hl hEq
            rw [hmEq] at hf
            rw [hf] at hp
            exact Bool.noConfusion hp
          exact ⟨hkeepD m hmn hl, hf, hnp⟩
        · rw [if_neg hp, show sliceOp s.slices.outOfPartitionNodeSlice n false =
            sliceDel s.slices.outOfPartitionNodeSlice n from rfl]
          intro m hm
          obtain ⟨hml, hmn⟩ := mem_sliceDel.mp hm
          obtain ⟨hl, hf, hnp⟩ := ih2 m hml
          exact ⟨hkeepD m hmn hl, hf, hnp⟩
      · dsimp only
        by_cases haf : n.podsWithAffinity.length > 0
        · rw [if_pos haf, show sliceOp s.slices.havePodsWithAffinityNodeSlice n false =
            sliceDel s.slices.havePodsWithAffinityNodeSlice n from rfl]
          intro m hm
          obtain ⟨hml, hmn⟩ := mem_sliceDel.mp hm
          obtain ⟨hl, hf, hnp⟩ := ih3 m hml
          exact ⟨hkeepD m hmn hl, hf, hnp⟩
        · rw [if_neg haf]
          intro m hm
          obtain ⟨hl, hf, hnp⟩ := ih3 m hm
          have hmn : m.name ≠ n.name := by
            intro hEq
            have hmEq := huniq m hl hEq
            rw [hmEq] at hf
            exact haf hf
          exact ⟨hkeepD m hmn hl, hf, hnp⟩
      · dsimp only
        by_cases har : n.podsWithRequiredAntiAffinity.length > 0
        · rw [if_pos har,
            show sliceOp s.slices.havePodsWithRequiredAntiAffinityNodeSlice n false =
              sliceDel s.slices.havePodsWithRequiredAntiAffinityNodeSlice n from rfl]
          intro m hm
          obtain ⟨hml, hmn⟩ := mem_sliceDel.mp hm
          obtain ⟨hl, hf, hnp⟩ := ih4 m hml
          exact ⟨hkeepD m hmn hl, hf, hnp⟩
        · rw [if_neg har]
          intro m hm
          obtain ⟨hl, hf, hnp⟩ := ih4 m hm
          have hmn : m.name ≠ n.name := by
            intro hEq
            have hmEq := huniq m hl hEq
            rw [hmEq] at hf
            exact har hf
          exact ⟨hkeepD m hmn hl, hf, hnp⟩
      · intro name m hm hmp
        dsimp only
        rw [assocFind_filter_ne] at hm
        by_cases hk : name = n.name
        · rw [if_pos hk] at hm
          exact Option.noConfusion hm
        · rw [if_neg hk] at hm
          obtain ⟨hin, hout⟩ := ih5 name m hm hmp
          have hmname : m.name = name := ih0 name m hm
          have hmn : m.name ≠ n.name := by
            rw [hmname]
            exact hk
          constructor
          · intro hf
            have hmem := hin hf
            by_cases hp : (n.nodeInPartition || n.nmNodeInPartition) = true
            · rw [if_pos hp, show sliceOp s.slices.inPartitionNodeSlice n false =
                sliceDel s.slices.inPartitionNodeSlice n from rfl]
              exact mem_sliceDel.mpr ⟨hmem, hmn⟩
            · rw [if_neg hp]
              exact hmem
          · intro hf
            have hmem := hout hf
            by_cases hp : (n.nodeInPartition || n.nmNodeInPartition) = true
            · rw [if_pos hp]
              exact hmem
            · rw [if_neg hp, show sliceOp s.slices.outOfPartitionNodeSlice n false =
                sliceDel s.slices.outOfPartitionNodeSlice n from rfl]
              exact mem_sliceDel.mpr ⟨hmem, hmn⟩

/-- C5: in every reachable snapshot state, a node present in any
`NodeSlices` list belongs to exactly one of the in-partition and
out-of-partition lists. -/
theorem slices_partition_exclusive (s : NodeStoreState) (h : Reachable s)
    (m : SliceNodeInfo) (hm : inAnySlice s.slices m) :
    (m ∈ s.slices.inPartitionNodeSlice ∧ m ∉ s.slices.outOfPartitionNodeSlice) ∨
    (m ∉ s.slices.inPartitionNodeSlice ∧ m ∈ s.slices.outOfPartitionNodeSlice) := by
  obtain ⟨ih0, ih1, ih2, ih3, ih4, ih5⟩ := slicesInv_of_reachable h
  have hexcl : m ∈ s.slices.inPartitionNodeSlice → m ∉ s.slices.outOfPartitionNodeSlice := by
    intro hin hout
    obtain ⟨_, hf1, _⟩ := ih1 m hin
    obtain ⟨_, hf2, _⟩ := ih2 m hout
    rw [hf1] at hf2
    exact Bool.noConfusion hf2
  have hofLookup : ∀ (hl : assocFind m.name s.nodes = some m)
      (hnp : m ≠ GlobalNodeInfoPlaceHolder), _ := fun hl hnp => ih5 m.name m hl hnp
  rcases hm with h1 | h2 | h3 | h4
  · exact Or.inl ⟨h1, hexcl h1⟩
  · refine Or.inr ⟨?_, h2⟩
    intro hin
    exact hexcl hin h2
  · obtain ⟨hl, _, hnp⟩ := ih3 m h3
    obtain ⟨hin, hout⟩ := ih5 m.name m hl hnp
    cases hflag : (m.nodeInPartition || m.nmNodeInPartition) with
    | true =>
      have hmem := hin hflag
      exact Or.inl ⟨hmem, hexcl hmem⟩
    | false =>
      have hmem := hout hflag
      refine Or.inr ⟨?_, hmem⟩
      intro hinm
      exact hexcl hinm hmem
  · obtain ⟨hl, _, hnp⟩ := ih4 m h4
    obtain ⟨hin, hout⟩ := ih5 m.name m hl hnp
    cases hflag : (m.nodeInPartition || m.nmNodeInPartition) with
    | true =>
      have hmem := hin hflag
      exact Or.inl ⟨hmem, hexcl hmem⟩
    | false =>
      have hmem := hout hflag
      refine Or.inr ⟨?_, hmem⟩
      intro hinm
      exact hexcl hinm hmem

/-- Witness for `slices_partition_exclusive`: after adding the single
in-partition node `wNode`, it is in the in-partition list and not in the
out-of-partition list. -/
theorem slices_partition_exclusive_witness :
    Reachable wState ∧ inAnySlice wState.slices wNode ∧
      ((wNode ∈ wState.slices.inPartitionNodeSlice ∧
          wNode ∉ wState.slices.outOfPartitionNodeSlice) ∨
        (wNode ∉ wState.slices.inPartitionNodeSlice ∧
          wNode ∈ wState.slices.outOfPartitionNodeSlice)) :=
  ⟨Reachable.add wNode Reachable.init rfl, by unfold inAnySlice; decide,
    slices_partition_exclusive wState (Reachable.add wNode Reachable.init rfl) wNode
      (by unfold inAnySlice; decide)⟩

end GodelScheduler
